import Mathlib

/-!
Shallow embedding of `src/agent/vllm_manager.py` (the multi-model GPU
residency manager `VLLMModelManager`) and verification of the spec's
claims about it.

The Python object's mutable fields become a `MState` record; each method
becomes a state-passing function transcribed line by line from the
source.  Exceptions raised by an engine's `wake_up()` are modelled by a
Boolean oracle `wakeOk`: a raising call returns `(false, partialState)`
where `partialState` holds exactly the mutations performed before the
raise (Python exceptions do not roll back prior assignments).
-/

namespace VLLM

/-- The `ModelName` literal type of the source:
`Literal["medgemma", "functiongemma", "medasr"]`. -/
inductive MName
  | medgemma
  | functiongemma
  | medasr
deriving DecidableEq, Repr, Fintype

/-- Values stored in the `_status` dict.  The source only ever writes the
strings `"asleep"` and `"awake"`; an absent key is the "unloaded" case. -/
inductive St
  | asleep
  | awake
deriving DecidableEq, Repr, Fintype

/-- What the `_medasr` field holds: the real `MedASRStreaming` engine, the
`SimulatedMedASR` fallback, or `None` (when `load_medasr=False`). -/
inductive AsrKind
  | real
  | simulated
deriving DecidableEq, Repr, Fintype

/-- Mutable state of a `VLLMModelManager` instance.
  * `gmu`, `maxLen`: the stored constructor arguments
    (`self.gpu_memory_utilization`, `self.max_model_len`);
  * `engines`: the key set of `self._vllm_engines` (insertion order);
  * `medasrEngine`: the `self._medasr` field;
  * `active`: `self._active`;
  * `status`: the `self._status` dict as an insertion-ordered
    association list. -/
structure MState where
  gmu : Rat
  maxLen : Nat
  engines : List MName
  medasrEngine : Option AsrKind
  active : Option MName
  status : List (MName × St)
deriving DecidableEq, Repr

/-- Python dict assignment `d[k] = v`: replace the value in place if the
key is present, append otherwise. -/
def setStatus : List (MName × St) → MName → St → List (MName × St)
  | [], k, v => [(k, v)]
  | (k', v') :: rest, k, v =>
      if k' = k then (k, v) :: rest else (k', v') :: setStatus rest k v

/-- Python dict read `d.get(k)`: first matching key. -/
def lookupSt : List (MName × St) → MName → Option St
  | [], _ => none
  | (k', v') :: rest, k => if k' = k then some v' else lookupSt rest k

/-- `_sleep_model` (source lines 119-128): sleep the engine (a no-op call
for the simulated fallback, which lacks a `sleep` attribute) and set the
status string to `"asleep"`; do nothing if the name has no engine. -/
def sleep_model (s : MState) (name : MName) : MState :=
  if name ∈ s.engines then
    { s with status := setStatus s.status name St.asleep }
  else if name = MName.medasr ∧ s.medasrEngine.isSome then
    { s with status := setStatus s.status MName.medasr St.asleep }
  else s

/-- `_wake_model` (source lines 130-139) with a failure oracle for the
engine-level `wake_up()` call.  A vLLM engine's `wake_up()` (and the real
MedASR's, behind the `hasattr` check) may raise; the simulated fallback
has no `wake_up` attribute, so no engine call happens and the status
write cannot be skipped by a raise.  When a call raises, the status
assignment after it is not executed. -/
def wake_model_f (wakeOk : MName → Bool) (s : MState) (name : MName) :
    Bool × MState :=
  if name ∈ s.engines then
    if wakeOk name then
      (true, { s with status := setStatus s.status name St.awake })
    else (false, s)
  else if name = MName.medasr ∧ s.medasrEngine.isSome then
    if s.medasrEngine = some AsrKind.real ∧ wakeOk MName.medasr = false then
      (false, s)
    else (true, { s with status := setStatus s.status MName.medasr St.awake })
  else (true, s)

/-- `_ensure_awake` (source lines 141-148) with the wake failure oracle.
Returns `(completedNormally, stateAfterwards)`; on a raise, the
assignments already performed (the sleep of the previously active model)
remain, and `self._active = name` is not reached. -/
def ensure_awake_f (wakeOk : MName → Bool) (s : MState) (name : MName) :
    Bool × MState :=
  if s.active = some name then (true, s)
  else
    let s1 := match s.active with
      | some a => sleep_model s a
      | none => s
    let r := wake_model_f wakeOk s1 name
    if r.1 then (true, { r.2 with active := some name }) else (false, r.2)

/-- `_ensure_awake` in the run where no engine call raises. -/
def ensure_awake (s : MState) (name : MName) : MState :=
  (ensure_awake_f (fun _ => true) s name).2

/-- `VLLMModelManager.__init__` (source lines 49-72 with `_init_medgemma`,
`_init_functiongemma`, `_init_medasr`): both vLLM engines are loaded and
immediately slept; if `load_medasr`, the MedASR load either succeeds
(slot slept) or raises, in which case the exception is absorbed, the
`SimulatedMedASR` fallback is substituted and the slot is marked
`"awake"`. -/
def initManager (gmu : Rat) (maxLen : Nat)
    (load_medasr : Bool) (medasrInitOk : Bool) : MState :=
  let base : MState :=
    { gmu := gmu
      maxLen := maxLen
      engines := [MName.medgemma, MName.functiongemma]
      medasrEngine := none
      active := none
      status := [(MName.medgemma, St.asleep), (MName.functiongemma, St.asleep)] }
  if load_medasr then
    if medasrInitOk then
      { base with
          medasrEngine := some AsrKind.real
          status := setStatus base.status MName.medasr St.asleep }
    else
      { base with
          medasrEngine := some AsrKind.simulated
          status := setStatus base.status MName.medasr St.awake }
  else base

/-- Shape of the `get_status` return value:
`{"active": <name|null>, "models": {<name>: {"status": <state>}}}`. -/
structure Snapshot where
  active : Option MName
  models : List (MName × St)
deriving DecidableEq, Repr

/-- `get_status` (source lines 234-241): builds a fresh snapshot from
`self._active` and `self._status` and performs no writes; the returned
pair is (snapshot, manager state after the call). -/
def get_status (s : MState) : Snapshot × MState :=
  ({ active := s.active, models := s.status }, s)

/-- Result of a transcription entry point. -/
inductive TResult
  | ok
  | attrError
deriving DecidableEq, Repr

/-- `transcribe_audio_file` (source lines 209-212): `_ensure_awake("medasr")`
then `self._medasr.transcribe_file(path)`.  With `self._medasr` equal to
`None` the attribute access raises; `SimulatedMedASR` has no
`transcribe_file` method either, so it also raises; only the real engine
transcribes. -/
def transcribe_audio_file (s : MState) : TResult × MState :=
  let s' := ensure_awake s MName.medasr
  match s'.medasrEngine with
  | none => (TResult.attrError, s')
  | some AsrKind.real => (TResult.ok, s')
  | some AsrKind.simulated => (TResult.attrError, s')

/-- `generate_medgemma` (source lines 158-182), manager-state part:
`_ensure_awake("medgemma")` then a vLLM `generate` call that does not
touch the manager's fields. -/
def generate_medgemma (s : MState) : MState :=
  ensure_awake s MName.medgemma

/-- `generate_functiongemma` (source lines 184-202), manager-state part. -/
def generate_functiongemma (s : MState) : MState :=
  ensure_awake s MName.functiongemma

/-- Constructor keyword arguments of `get_vllm_manager`. -/
structure MakeArgs where
  gmu : Rat
  maxLen : Nat
  load_medasr : Bool
deriving DecidableEq, Repr

/-- `get_vllm_manager` (source lines 388-392): the module-level `_manager`
singleton is the first argument; the function returns the manager handed
to the caller and the new value of `_manager`.  The kwargs and the MedASR
load outcome only matter when `_manager` is `None`. -/
def get_vllm_manager (cache : Option MState) (a : MakeArgs)
    (medasrInitOk : Bool) : MState × Option MState :=
  match cache with
  | some m => (m, some m)
  | none =>
      let m := initManager a.gmu a.maxLen a.load_medasr medasrInitOk
      (m, some m)

/-! ### Lock-usage traces

The claims about the `asyncio.Lock` are about which code runs under the
lock, so we also transcribe the lock-relevant event sequence of each
public inference entry point directly from the source call structure. -/

/-- Lock-relevant events in the execution of an entry point. -/
inductive CallEv
  | lockAcquire
  | lockRelease
  | transition (n : MName)
  | inference (n : MName)
deriving DecidableEq, Repr

/-- Events of the synchronous `_ensure_awake` (source lines 141-148): a
state transition with no lock operations. -/
def ensureAwakeEvents (n : MName) : List CallEv :=
  [CallEv.transition n]

/-- Events of `_ensure_awake_async` (source lines 150-154): the lock is
acquired, the transition runs in an executor, and `async with` releases
the lock; no inference happens inside. -/
def ensureAwakeAsyncEvents (n : MName) : List CallEv :=
  [CallEv.lockAcquire, CallEv.transition n, CallEv.lockRelease]

/-- The public inference entry points of the manager. -/
inductive EntryPoint
  | generateMedgemma
  | generateFunctiongemma
  | transcribeAudioFile
  | transcribeAudioBytes
deriving DecidableEq, Repr, Fintype

/-- The model each entry point activates. -/
def entryModel : EntryPoint → MName
  | EntryPoint.generateMedgemma => MName.medgemma
  | EntryPoint.generateFunctiongemma => MName.functiongemma
  | EntryPoint.transcribeAudioFile => MName.medasr
  | EntryPoint.transcribeAudioBytes => MName.medasr

/-- Event sequence of each entry point, transcribed from the source: every
one of them calls the synchronous `_ensure_awake` (never
`_ensure_awake_async`) and then performs its inference call. -/
def entryEvents (e : EntryPoint) : List CallEv :=
  ensureAwakeEvents (entryModel e) ++ [CallEv.inference (entryModel e)]

/-- `true` when every transition and inference event of the trace occurs
at positive lock depth, i.e. while the mutex is held. -/
def lockedThroughout : List CallEv → Nat → Bool
  | [], _ => true
  | CallEv.lockAcquire :: rest, d => lockedThroughout rest (d + 1)
  | CallEv.lockRelease :: rest, d => lockedThroughout rest (d - 1)
  | CallEv.transition _ :: rest, d => decide (0 < d) && lockedThroughout rest d
  | CallEv.inference _ :: rest, d => decide (0 < d) && lockedThroughout rest d

/-- The mutex is held across every transition and inference of the trace. -/
def holdsLockAcross (evs : List CallEv) : Bool :=
  lockedThroughout evs 0

/-! ### Engine-call traces of a transition -/

/-- Engine-level evict/restore calls. -/
inductive TransEv
  | sleepEv (n : MName)
  | wakeEv (n : MName)
deriving DecidableEq, Repr

/-- Engine calls performed by `_sleep_model`: vLLM engines get
`sleep(level=2)`; the real MedASR has a `sleep` attribute, the simulated
fallback does not (the `hasattr` guard skips the call). -/
def sleepEvents (s : MState) (name : MName) : List TransEv :=
  if name ∈ s.engines then [TransEv.sleepEv name]
  else if name = MName.medasr ∧ s.medasrEngine = some AsrKind.real then
    [TransEv.sleepEv MName.medasr]
  else []

/-- Engine calls performed by `_wake_model`, mirroring `sleepEvents`. -/
def wakeEvents (s : MState) (name : MName) : List TransEv :=
  if name ∈ s.engines then [TransEv.wakeEv name]
  else if name = MName.medasr ∧ s.medasrEngine = some AsrKind.real then
    [TransEv.wakeEv MName.medasr]
  else []

/-- Engine-call trace of one `_ensure_awake name` call: empty on the fast
path; otherwise the sleep calls for the previously active model, then the
wake calls for the requested one. -/
def ensureAwakeTrace (s : MState) (name : MName) : List TransEv :=
  if s.active = some name then []
  else
    (match s.active with
      | some a => sleepEvents s a
      | none => []) ++
    wakeEvents (match s.active with | some a => sleep_model s a | none => s) name

/-- The manager states visited during one `_ensure_awake name` call, in
order: initial, after sleeping the previously active model, after waking
the requested model, after recording `self._active = name`. -/
def ensureAwakeStates (s : MState) (name : MName) : List MState :=
  if s.active = some name then [s]
  else
    let s1 := match s.active with
      | some a => sleep_model s a
      | none => s
    let s2 := (wake_model_f (fun _ => true) s1 name).2
    [s, s1, s2, { s2 with active := some name }]

/-- `true` when no `sleepEv` occurs after any `wakeEv` in the trace
(i.e. the trace is never restore-then-evict). -/
def isSleepEv : TransEv → Bool
  | TransEv.sleepEv _ => true
  | TransEv.wakeEv _ => false

def noSleepAfterWake : List TransEv → Bool
  | [] => true
  | TransEv.wakeEv _ :: rest =>
      rest.all (fun e => !isSleepEv e) && noSleepAfterWake rest
  | TransEv.sleepEv _ :: rest => noSleepAfterWake rest

/-! ### Derived notions used by the claims -/

/-- All model names. -/
def allNames : List MName :=
  [MName.medgemma, MName.functiongemma, MName.medasr]

/-- A slot is GPU-backed when its engine occupies GPU memory while awake:
the two vLLM engines, and the real MedASR (loaded with `device="cuda"`).
The `SimulatedMedASR` fallback is software-only ("no GPU" per the
source). -/
def gpuBacked (s : MState) (m : MName) : Bool :=
  decide (m ∈ s.engines) ||
    (decide (m = MName.medasr) && decide (s.medasrEngine = some AsrKind.real))

/-- A GPU-backed slot whose recorded status is `"awake"`. -/
def gpuResident (s : MState) (m : MName) : Bool :=
  gpuBacked s m && decide (lookupSt s.status m = some St.awake)

/-- The names whose status-map entry is `"awake"`. -/
def awakeNames (s : MState) : List MName :=
  allNames.filter (fun m => decide (lookupSt s.status m = some St.awake))

/-- A name is load-completed when it has a status-map entry. -/
def loadCompleted (s : MState) (m : MName) : Bool :=
  (lookupSt s.status m).isSome

/-! ### Reachability -/

/-- States reachable from `s0` by `_ensure_awake` calls whose engine
`wake_up()` calls may raise arbitrarily. -/
inductive ReachFrom : MState → MState → Prop
  | refl (s : MState) : ReachFrom s s
  | step (s s' : MState) (n : MName) (wakeOk : MName → Bool) :
      ReachFrom s s' → ReachFrom s (ensure_awake_f wakeOk s' n).2

/-- States reachable from `s0` by `_ensure_awake` calls in which no engine
call raises. -/
inductive StepsFrom : MState → MState → Prop
  | refl (s : MState) : StepsFrom s s
  | step (s s' : MState) (n : MName) :
      StepsFrom s s' → StepsFrom s (ensure_awake s' n)

/-- Reachable manager states: any construction, then any call sequence
(with possible wake failures). -/
def Reach (s : MState) : Prop :=
  ∃ gmu maxLen lm ok, ReachFrom (initManager gmu maxLen lm ok) s

/-- Normally-reachable manager states: a construction in which the MedASR
load did not fall back, then calls in which no engine call raises. -/
def ReachN (s : MState) : Prop :=
  ∃ gmu maxLen lm, StepsFrom (initManager gmu maxLen lm true) s

/-- Manager states reachable from a construction in which the MedASR load
did not fall back, by any call sequence — calls whose engine `wake_up()`
raises included. -/
def ReachNF (s : MState) : Prop :=
  ∃ gmu maxLen lm, ReachFrom (initManager gmu maxLen lm true) s

/-! ### Basic lemmas about the status map -/

theorem lookupSt_setStatus_self (l : List (MName × St)) (k : MName) (v : St) :
    lookupSt (setStatus l k v) k = some v := by
  induction l with
  | nil => simp [setStatus, lookupSt]
  | cons p rest ih =>
      obtain ⟨k', v'⟩ := p
      by_cases h : k' = k
      · simp [setStatus, lookupSt, h]
      · simp [setStatus, lookupSt, h, ih]

theorem lookupSt_setStatus_ne (l : List (MName × St)) (k m : MName) (v : St)
    (h : m ≠ k) : lookupSt (setStatus l k v) m = lookupSt l m := by
  induction l with
  | nil => simp [setStatus, lookupSt, Ne.symm h]
  | cons p rest ih =>
      obtain ⟨k', v'⟩ := p
      by_cases hk : k' = k
      · subst hk
        simp [setStatus, lookupSt, Ne.symm h]
      · by_cases hm : k' = m
        · subst hm
          simp [setStatus, lookupSt, hk]
        · simp [setStatus, lookupSt, hk, hm, ih]

theorem map_fst_setStatus (l : List (MName × St)) (k : MName) (v : St)
    (h : k ∈ l.map Prod.fst) :
    (setStatus l k v).map Prod.fst = l.map Prod.fst := by
  induction l with
  | nil => simp at h
  | cons p rest ih =>
      obtain ⟨k', v'⟩ := p
      by_cases hk : k' = k
      · simp [setStatus, hk]
      · simp only [List.map_cons, List.mem_cons] at h
        rcases h with h | h
        · exact absurd h.symm hk
        · simp [setStatus, hk, ih h]

theorem lookupSt_isSome_iff (l : List (MName × St)) (k : MName) :
    (lookupSt l k).isSome ↔ k ∈ l.map Prod.fst := by
  induction l with
  | nil => simp [lookupSt]
  | cons p rest ih =>
      obtain ⟨k', v'⟩ := p
      by_cases h : k' = k
      · simp [lookupSt, h]
      · simp [lookupSt, h, ih, Ne.symm h]

/-! ### Well-formedness of manager states -/

/-- Structural facts holding in every reachable state (wake failures and
the simulated fallback included): the engine dict has exactly the two
vLLM engines; the status keys are determined by whether a MedASR slot
exists; and any GPU-resident slot is the recorded active model. -/
structure WF (s : MState) : Prop where
  eng : s.engines = [MName.medgemma, MName.functiongemma]
  keys : s.status.map Prod.fst =
    if s.medasrEngine.isSome then
      [MName.medgemma, MName.functiongemma, MName.medasr]
    else [MName.medgemma, MName.functiongemma]
  gpuInv : ∀ m, gpuResident s m = true → s.active = some m

/-- Stronger facts holding in every normally-reachable state (no wake
failures, no simulated fallback): every awake slot is the active model,
and a load-completed active model is awake. -/
structure NWF (s : MState) : Prop where
  wf : WF s
  noSim : s.medasrEngine ≠ some AsrKind.simulated
  awakeInv : ∀ m, lookupSt s.status m = some St.awake → s.active = some m
  activeAwake : ∀ a, s.active = some a → loadCompleted s a = true →
    lookupSt s.status a = some St.awake

/-- Facts holding in every state reachable from a fallback-free
construction, wake failures included: every awake slot is the active
model (a failed wake only puts the old model to sleep, so it can break
`NWF.activeAwake` but never this). -/
structure FWF (s : MState) : Prop where
  wf : WF s
  noSim : s.medasrEngine ≠ some AsrKind.simulated
  awakeInv : ∀ m, lookupSt s.status m = some St.awake → s.active = some m

/-! ### Frame lemmas: which fields each operation can touch -/

theorem sleep_model_engines (s : MState) (a : MName) :
    (sleep_model s a).engines = s.engines := by
  unfold sleep_model
  split
  · rfl
  · split
    · rfl
    · rfl

theorem sleep_model_medasr (s : MState) (a : MName) :
    (sleep_model s a).medasrEngine = s.medasrEngine := by
  unfold sleep_model
  split
  · rfl
  · split
    · rfl
    · rfl

theorem sleep_model_active (s : MState) (a : MName) :
    (sleep_model s a).active = s.active := by
  unfold sleep_model
  split
  · rfl
  · split
    · rfl
    · rfl

theorem wake_model_f_engines (w : MName → Bool) (s : MState) (n : MName) :
    (wake_model_f w s n).2.engines = s.engines := by
  unfold wake_model_f
  split
  · split
    · rfl
    · rfl
  · split
    · split
      · rfl
      · rfl
    · rfl

theorem wake_model_f_medasr (w : MName → Bool) (s : MState) (n : MName) :
    (wake_model_f w s n).2.medasrEngine = s.medasrEngine := by
  unfold wake_model_f
  split
  · split
    · rfl
    · rfl
  · split
    · split
      · rfl
      · rfl
    · rfl

theorem wake_model_f_active (w : MName → Bool) (s : MState) (n : MName) :
    (wake_model_f w s n).2.active = s.active := by
  unfold wake_model_f
  split
  · split
    · rfl
    · rfl
  · split
    · split
      · rfl
      · rfl
    · rfl

theorem ensure_f_engines (w : MName → Bool) (s : MState) (n : MName) :
    (ensure_awake_f w s n).2.engines = s.engines := by
  unfold ensure_awake_f
  split
  · rfl
  · split
    · rename_i a ha
      by_cases hw : (wake_model_f w (sleep_model s a) n).1 = true <;>
        simp [hw, wake_model_f_engines, sleep_model_engines]
    · by_cases hw : (wake_model_f w s n).1 = true <;>
        simp [hw, wake_model_f_engines]

theorem ensure_f_medasr (w : MName → Bool) (s : MState) (n : MName) :
    (ensure_awake_f w s n).2.medasrEngine = s.medasrEngine := by
  unfold ensure_awake_f
  split
  · rfl
  · split
    · rename_i a ha
      by_cases hw : (wake_model_f w (sleep_model s a) n).1 = true <;>
        simp [hw, wake_model_f_medasr, sleep_model_medasr]
    · by_cases hw : (wake_model_f w s n).1 = true <;>
        simp [hw, wake_model_f_medasr]

/-! ### Branch behaviour of the sleep/wake helpers -/

theorem ensure_f_fast (w : MName → Bool) (s : MState) (n : MName)
    (h : s.active = some n) : ensure_awake_f w s n = (true, s) := by
  unfold ensure_awake_f
  rw [if_pos h]

theorem lookupSt_sleep_ne (s : MState) (a m : MName) (h : m ≠ a) :
    lookupSt (sleep_model s a).status m = lookupSt s.status m := by
  unfold sleep_model
  split
  · exact lookupSt_setStatus_ne _ _ _ _ h
  · split
    · rename_i hc
      obtain ⟨ha, _⟩ := hc
      subst ha
      exact lookupSt_setStatus_ne _ _ _ _ h
    · rfl

theorem lookupSt_sleep_self (s : MState) (a : MName)
    (h : a ∈ s.engines ∨ (a = MName.medasr ∧ s.medasrEngine.isSome)) :
    lookupSt (sleep_model s a).status a = some St.asleep := by
  unfold sleep_model
  split
  · exact lookupSt_setStatus_self _ _ _
  · split
    · rename_i hc
      obtain ⟨ha, _⟩ := hc
      subst ha
      exact lookupSt_setStatus_self _ _ _
    · rename_i h1 h2
      rcases h with h | h
      · exact absurd h h1
      · exact absurd h h2

theorem sleep_self_not_awake (s : MState) (a : MName) (hwf : WF s) :
    lookupSt (sleep_model s a).status a ≠ some St.awake := by
  by_cases h : a ∈ s.engines ∨ (a = MName.medasr ∧ s.medasrEngine.isSome)
  · rw [lookupSt_sleep_self s a h]
    simp
  · have h1 : a ∉ s.engines := fun hc => h (Or.inl hc)
    have h2 : ¬(a = MName.medasr ∧ s.medasrEngine.isSome) := fun hc => h (Or.inr hc)
    have hs : sleep_model s a = s := by
      unfold sleep_model
      rw [if_neg h1, if_neg h2]
    rw [hs]
    rw [hwf.eng] at h1
    cases a with
    | medgemma => simp at h1
    | functiongemma => simp at h1
    | medasr =>
        have hnone : s.medasrEngine.isSome = false := by
          cases hh : s.medasrEngine.isSome
          · rfl
          · exact absurd ⟨rfl, hh⟩ h2
        have hk := hwf.keys
        rw [hnone] at hk
        simp only [Bool.false_eq_true, if_false] at hk
        have hmem : MName.medasr ∉ s.status.map Prod.fst := by
          rw [hk]
          simp
        cases hl : lookupSt s.status MName.medasr with
        | none => simp
        | some v =>
            exfalso
            apply hmem
            rw [← lookupSt_isSome_iff, hl]
            rfl

theorem lookupSt_wake_ne (w : MName → Bool) (s : MState) (n m : MName)
    (h : m ≠ n) :
    lookupSt (wake_model_f w s n).2.status m = lookupSt s.status m := by
  unfold wake_model_f
  split
  · split
    · exact lookupSt_setStatus_ne _ _ _ _ h
    · rfl
  · split
    · rename_i hc
      obtain ⟨hn, _⟩ := hc
      subst hn
      split
      · rfl
      · exact lookupSt_setStatus_ne _ _ _ _ h
    · rfl

theorem wake_f_state_of_false (w : MName → Bool) (s : MState) (n : MName)
    (h : (wake_model_f w s n).1 = false) : (wake_model_f w s n).2 = s := by
  by_cases h1 : n ∈ s.engines
  · by_cases h2 : w n = true
    · simp [wake_model_f, h1, h2] at h
    · simp [wake_model_f, h1, h2]
  · by_cases h3 : n = MName.medasr ∧ s.medasrEngine.isSome
    · obtain ⟨hn, hsome⟩ := h3
      subst hn
      by_cases h4 : s.medasrEngine = some AsrKind.real ∧ w MName.medasr = false
      · simp [wake_model_f, h1, hsome, h4]
      · simp [wake_model_f, h1, hsome, h4] at h
    · simp [wake_model_f, h1, h3] at h

theorem wake_true_ok (s : MState) (n : MName) :
    (wake_model_f (fun _ => true) s n).1 = true := by
  by_cases h1 : n ∈ s.engines
  · simp [wake_model_f, h1]
  · by_cases h3 : n = MName.medasr ∧ s.medasrEngine.isSome
    · simp [wake_model_f, h1, h3]
    · simp [wake_model_f, h1, h3]

theorem lookupSt_wake_self (w : MName → Bool) (s : MState) (n : MName)
    (hok : (wake_model_f w s n).1 = true)
    (hk : n ∈ s.engines ∨ (n = MName.medasr ∧ s.medasrEngine.isSome)) :
    lookupSt (wake_model_f w s n).2.status n = some St.awake := by
  by_cases h1 : n ∈ s.engines
  · by_cases h2 : w n = true
    · simp [wake_model_f, h1, h2, lookupSt_setStatus_self]
    · simp [wake_model_f, h1, h2] at hok
  · rcases hk with hk | hk
    · exact absurd hk h1
    · obtain ⟨hn, hsome⟩ := hk
      subst hn
      by_cases h4 : s.medasrEngine = some AsrKind.real ∧ w MName.medasr = false
      · simp [wake_model_f, h1, hsome, h4] at hok
      · simp [wake_model_f, h1, hsome, h4, lookupSt_setStatus_self]

theorem wake_f_no_slot (w : MName → Bool) (s : MState) (n : MName)
    (h1 : n ∉ s.engines)
    (h3 : ¬(n = MName.medasr ∧ s.medasrEngine.isSome)) :
    wake_model_f w s n = (true, s) := by
  simp [wake_model_f, h1, h3]

theorem map_fst_sleep (s : MState) (a : MName) (hwf : WF s) :
    (sleep_model s a).status.map Prod.fst = s.status.map Prod.fst := by
  unfold sleep_model
  split
  · rename_i hmem
    apply map_fst_setStatus
    rw [hwf.eng] at hmem
    have hcase : a = MName.medgemma ∨ a = MName.functiongemma := by
      simpa using hmem
    rw [hwf.keys]
    rcases hcase with rfl | rfl <;> split <;> simp
  · split
    · rename_i hc
      obtain ⟨ha, hsome⟩ := hc
      subst ha
      apply map_fst_setStatus
      rw [hwf.keys]
      simp [hsome]
    · rfl

theorem map_fst_wake (w : MName → Bool) (s : MState) (n : MName)
    (heng : s.engines = [MName.medgemma, MName.functiongemma])
    (hkeys : s.status.map Prod.fst =
      if s.medasrEngine.isSome then
        [MName.medgemma, MName.functiongemma, MName.medasr]
      else [MName.medgemma, MName.functiongemma]) :
    (wake_model_f w s n).2.status.map Prod.fst = s.status.map Prod.fst := by
  by_cases h1 : n ∈ s.engines
  · by_cases h2 : w n = true
    · have hmem : n ∈ s.status.map Prod.fst := by
        rw [heng] at h1
        have hcase : n = MName.medgemma ∨ n = MName.functiongemma := by
          simpa using h1
        rw [hkeys]
        rcases hcase with rfl | rfl <;> split <;> simp
      simp [wake_model_f, h1, h2, map_fst_setStatus _ _ _ hmem]
    · simp [wake_model_f, h1, h2]
  · by_cases h3 : n = MName.medasr ∧ s.medasrEngine.isSome
    · obtain ⟨hn, hsome⟩ := h3
      subst hn
      by_cases h4 : s.medasrEngine = some AsrKind.real ∧ w MName.medasr = false
      · simp [wake_model_f, h1, hsome, h4]
      · have hmem : MName.medasr ∈ s.status.map Prod.fst := by
          rw [hkeys]
          simp [hsome]
        simp [wake_model_f, h1, hsome, h4, map_fst_setStatus _ _ _ hmem]
    · simp [wake_model_f, h1, h3]

theorem ensure_f_slow_some (w : MName → Bool) (s : MState) (n a : MName)
    (ha : s.active = some a) (hne : a ≠ n) :
    ensure_awake_f w s n =
      if (wake_model_f w (sleep_model s a) n).1 then
        (true, { (wake_model_f w (sleep_model s a) n).2 with active := some n })
      else (false, (wake_model_f w (sleep_model s a) n).2) := by
  unfold ensure_awake_f
  have hno : ¬s.active = some n := by
    rw [ha]
    simp [hne]
  rw [if_neg hno]
  simp only [ha]

theorem ensure_f_slow_none (w : MName → Bool) (s : MState) (n : MName)
    (ha : s.active = none) :
    ensure_awake_f w s n =
      if (wake_model_f w s n).1 then
        (true, { (wake_model_f w s n).2 with active := some n })
      else (false, (wake_model_f w s n).2) := by
  unfold ensure_awake_f
  have hno : ¬s.active = some n := by
    rw [ha]
    simp
  rw [if_neg hno]
  simp only [ha]

theorem ensure_f_active_of_true (w : MName → Bool) (s : MState) (n : MName)
    (h : (ensure_awake_f w s n).1 = true) :
    (ensure_awake_f w s n).2.active = some n := by
  by_cases hf : s.active = some n
  · rw [ensure_f_fast w s n hf]
    exact hf
  · cases ha : s.active with
    | some a =>
        have hne : a ≠ n := fun he => hf (he ▸ ha)
        rw [ensure_f_slow_some w s n a ha hne] at h ⊢
        by_cases hw : (wake_model_f w (sleep_model s a) n).1 = true
        · simp [hw]
        · simp [hw] at h
    | none =>
        rw [ensure_f_slow_none w s n ha] at h ⊢
        by_cases hw : (wake_model_f w s n).1 = true
        · simp [hw]
        · simp [hw] at h

theorem ensure_f_active_of_false (w : MName → Bool) (s : MState) (n : MName)
    (h : (ensure_awake_f w s n).1 = false) :
    (ensure_awake_f w s n).2.active = s.active := by
  by_cases hf : s.active = some n
  · rw [ensure_f_fast w s n hf]
  · cases ha : s.active with
    | some a =>
        have hne : a ≠ n := fun he => hf (he ▸ ha)
        rw [ensure_f_slow_some w s n a ha hne] at h ⊢
        by_cases hw : (wake_model_f w (sleep_model s a) n).1 = true
        · simp [hw] at h
        · have hst := wake_f_state_of_false w (sleep_model s a) n
            (by simpa using hw)
          simp [hw, hst, sleep_model_active, ha]
    | none =>
        rw [ensure_f_slow_none w s n ha] at h ⊢
        by_cases hw : (wake_model_f w s n).1 = true
        · simp [hw] at h
        · have hst := wake_f_state_of_false w s n (by simpa using hw)
          simp [hw, hst, ha]

theorem ensure_true_ok (s : MState) (n : MName) :
    (ensure_awake_f (fun _ => true) s n).1 = true := by
  by_cases hf : s.active = some n
  · rw [ensure_f_fast _ s n hf]
  · cases ha : s.active with
    | some a =>
        have hne : a ≠ n := fun he => hf (he ▸ ha)
        rw [ensure_f_slow_some _ s n a ha hne]
        simp [wake_true_ok]
    | none =>
        rw [ensure_f_slow_none _ s n ha]
        simp [wake_true_ok]

theorem ensure_awake_active (s : MState) (n : MName) :
    (ensure_awake s n).active = some n :=
  ensure_f_active_of_true _ s n (ensure_true_ok s n)

/-! ### GPU-residency lemmas -/

theorem gpuBacked_congr (s s' : MState) (m : MName)
    (h1 : s'.engines = s.engines) (h2 : s'.medasrEngine = s.medasrEngine) :
    gpuBacked s' m = gpuBacked s m := by
  simp [gpuBacked, h1, h2]

theorem gpuResident_sleep_ne (s : MState) (a m : MName) (h : m ≠ a) :
    gpuResident (sleep_model s a) m = gpuResident s m := by
  unfold gpuResident
  rw [gpuBacked_congr s _ m (sleep_model_engines s a) (sleep_model_medasr s a),
    lookupSt_sleep_ne s a m h]

theorem gpuResident_wake_ne (w : MName → Bool) (s : MState) (n m : MName)
    (h : m ≠ n) :
    gpuResident (wake_model_f w s n).2 m = gpuResident s m := by
  unfold gpuResident
  rw [gpuBacked_congr s _ m (wake_model_f_engines w s n) (wake_model_f_medasr w s n),
    lookupSt_wake_ne w s n m h]

theorem gpuResident_setActive (s : MState) (o : Option MName) (m : MName) :
    gpuResident { s with active := o } m = gpuResident s m := rfl

theorem gpuResident_sleep_self (s : MState) (a : MName) (hwf : WF s) :
    gpuResident (sleep_model s a) a = false := by
  have hna := sleep_self_not_awake s a hwf
  simp [gpuResident, hna]

theorem no_gpu_after_sleep (s : MState) (a m : MName) (hwf : WF s)
    (hact : s.active = some a) :
    gpuResident (sleep_model s a) m = false := by
  by_cases hma : m = a
  · subst hma
    exact gpuResident_sleep_self s m hwf
  · rw [gpuResident_sleep_ne s a m hma]
    by_cases hres : gpuResident s m = true
    · have := hwf.gpuInv m hres
      rw [hact] at this
      exact absurd (Option.some_injective _ this.symm) hma
    · simpa using hres

/-! ### Preservation of well-formedness -/

theorem ensure_f_map_fst (w : MName → Bool) (s : MState) (n : MName)
    (h : WF s) :
    (ensure_awake_f w s n).2.status.map Prod.fst = s.status.map Prod.fst := by
  by_cases hf : s.active = some n
  · rw [ensure_f_fast w s n hf]
  · cases ha : s.active with
    | some a =>
        have hne : a ≠ n := fun he => hf (he ▸ ha)
        rw [ensure_f_slow_some w s n a ha hne]
        have heng1 : (sleep_model s a).engines =
            [MName.medgemma, MName.functiongemma] := by
          rw [sleep_model_engines, h.eng]
        have hkeys1 : (sleep_model s a).status.map Prod.fst =
            if (sleep_model s a).medasrEngine.isSome then
              [MName.medgemma, MName.functiongemma, MName.medasr]
            else [MName.medgemma, MName.functiongemma] := by
          rw [map_fst_sleep s a h, sleep_model_medasr]
          exact h.keys
        have hw1 := map_fst_wake w (sleep_model s a) n heng1 hkeys1
        by_cases hw : (wake_model_f w (sleep_model s a) n).1 = true
        · simp only [hw, if_true]
          rw [show ({ (wake_model_f w (sleep_model s a) n).2 with
              active := some n } : MState).status =
              (wake_model_f w (sleep_model s a) n).2.status from rfl]
          rw [hw1, map_fst_sleep s a h]
        · simp only [hw, if_false, Bool.false_eq_true]
          rw [hw1, map_fst_sleep s a h]
    | none =>
        rw [ensure_f_slow_none w s n ha]
        have hw1 := map_fst_wake w s n h.eng h.keys
        by_cases hw : (wake_model_f w s n).1 = true
        · simp only [hw, if_true]
          rw [show ({ (wake_model_f w s n).2 with active := some n } :
              MState).status = (wake_model_f w s n).2.status from rfl]
          rw [hw1]
        · simp only [hw, if_false, Bool.false_eq_true]
          rw [hw1]

theorem WF_init (g : Rat) (L : Nat) (lm ok : Bool) :
    WF (initManager g L lm ok) := by
  refine ⟨?_, ?_, ?_⟩
  · cases lm <;> cases ok <;> rfl
  · cases lm <;> cases ok <;> rfl
  · intro m hm
    exfalso
    cases lm <;> cases ok <;> cases m <;>
      simp [initManager, gpuResident, gpuBacked, setStatus, lookupSt] at hm

theorem WF_step (w : MName → Bool) (s : MState) (n : MName) (h : WF s) :
    WF (ensure_awake_f w s n).2 := by
  refine ⟨?_, ?_, ?_⟩
  · rw [ensure_f_engines]
    exact h.eng
  · rw [ensure_f_medasr, ensure_f_map_fst w s n h]
    exact h.keys
  · intro m hm
    by_cases hf : s.active = some n
    · rw [ensure_f_fast w s n hf] at hm ⊢
      exact h.gpuInv m hm
    · cases ha : s.active with
      | some a =>
          have hne : a ≠ n := fun he => hf (he ▸ ha)
          rw [ensure_f_slow_some w s n a ha hne] at hm ⊢
          by_cases hw : (wake_model_f w (sleep_model s a) n).1 = true
          · simp only [hw, if_true] at hm ⊢
            by_cases hmn : m = n
            · subst hmn
              rfl
            · exfalso
              rw [gpuResident_setActive, gpuResident_wake_ne w _ n m hmn]
                at hm
              rw [no_gpu_after_sleep s a m h ha] at hm
              exact Bool.false_ne_true hm
          · simp only [hw, if_false, Bool.false_eq_true] at hm ⊢
            have hst := wake_f_state_of_false w (sleep_model s a) n
              (by simpa using hw)
            rw [hst] at hm ⊢
            exfalso
            rw [no_gpu_after_sleep s a m h ha] at hm
            exact Bool.false_ne_true hm
      | none =>
          rw [ensure_f_slow_none w s n ha] at hm ⊢
          by_cases hw : (wake_model_f w s n).1 = true
          · simp only [hw, if_true] at hm ⊢
            by_cases hmn : m = n
            · subst hmn
              rfl
            · exfalso
              rw [gpuResident_setActive, gpuResident_wake_ne w s n m hmn]
                at hm
              have := h.gpuInv m hm
              rw [ha] at this
              exact Option.noConfusion this
          · simp only [hw, if_false, Bool.false_eq_true] at hm ⊢
            have hst := wake_f_state_of_false w s n (by simpa using hw)
            rw [hst] at hm ⊢
            exact h.gpuInv m hm

theorem lookup_setActive (s : MState) (o : Option MName) (m : MName) :
    lookupSt ({ s with active := o } : MState).status m = lookupSt s.status m :=
  rfl

theorem lookup_isSome_congr (l l' : List (MName × St)) (m : MName)
    (h : l.map Prod.fst = l'.map Prod.fst) :
    (lookupSt l m).isSome = (lookupSt l' m).isSome := by
  have h1 := lookupSt_isSome_iff l m
  have h2 := lookupSt_isSome_iff l' m
  rw [h] at h1
  by_cases hm : m ∈ l'.map Prod.fst
  · rw [h1.mpr hm, h2.mpr hm]
  · cases hl : (lookupSt l m).isSome with
    | false =>
        cases hl' : (lookupSt l' m).isSome with
        | false => rfl
        | true => exact absurd (h2.mp hl') hm
    | true => exact absurd (h1.mp hl) hm

theorem loadCompleted_ensure (w : MName → Bool) (s : MState) (n m : MName)
    (hwf : WF s) :
    loadCompleted (ensure_awake_f w s n).2 m = loadCompleted s m := by
  unfold loadCompleted
  exact lookup_isSome_congr _ _ m (ensure_f_map_fst w s n hwf)

theorem no_awake_after_sleep (s : MState) (a m : MName) (hwf : WF s)
    (hawk : ∀ m', lookupSt s.status m' = some St.awake → s.active = some m')
    (hact : s.active = some a) :
    lookupSt (sleep_model s a).status m ≠ some St.awake := by
  by_cases hma : m = a
  · subst hma
    exact sleep_self_not_awake s m hwf
  · rw [lookupSt_sleep_ne s a m hma]
    intro hm
    have hx := hawk m hm
    rw [hact] at hx
    simp at hx
    exact hma hx.symm

theorem NWF_init (g : Rat) (L : Nat) (lm : Bool) :
    NWF (initManager g L lm true) := by
  refine ⟨WF_init g L lm true, ?_, ?_, ?_⟩
  · cases lm <;> simp [initManager]
  · intro m hm
    exfalso
    cases lm <;> cases m <;> simp [initManager, setStatus, lookupSt] at hm
  · intro a hact
    exfalso
    cases lm <;> simp [initManager] at hact

theorem NWF_step (s : MState) (n : MName) (h : NWF s) :
    NWF (ensure_awake s n) := by
  refine ⟨WF_step _ s n h.wf, ?_, ?_, ?_⟩
  · rw [show (ensure_awake s n).medasrEngine = s.medasrEngine from
      ensure_f_medasr _ s n]
    exact h.noSim
  · intro m hm
    rw [ensure_awake_active s n]
    by_cases hmn : m = n
    · rw [hmn]
    · exfalso
      unfold ensure_awake at hm
      by_cases hf : s.active = some n
      · rw [ensure_f_fast _ s n hf] at hm
        have hx := h.awakeInv m hm
        rw [hf] at hx
        simp at hx
        exact hmn hx.symm
      · cases ha : s.active with
        | some a =>
            have hne : a ≠ n := fun he => hf (he ▸ ha)
            rw [ensure_f_slow_some _ s n a ha hne] at hm
            simp only [wake_true_ok, if_true] at hm
            rw [lookup_setActive, lookupSt_wake_ne _ _ n m hmn] at hm
            exact no_awake_after_sleep s a m h.wf h.awakeInv ha hm
        | none =>
            rw [ensure_f_slow_none _ s n ha] at hm
            simp only [wake_true_ok, if_true] at hm
            rw [lookup_setActive, lookupSt_wake_ne _ _ n m hmn] at hm
            have hx := h.awakeInv m hm
            rw [ha] at hx
            exact Option.noConfusion hx
  · intro a hact hlc
    rw [ensure_awake_active s n] at hact
    have han : n = a := by simpa using hact
    subst han
    by_cases hf : s.active = some n
    · unfold ensure_awake at hlc ⊢
      rw [ensure_f_fast _ s n hf] at hlc ⊢
      exact h.activeAwake n hf hlc
    · cases ha' : s.active with
      | some b =>
          have hne : b ≠ n := fun he => hf (he ▸ ha')
          unfold ensure_awake at hlc ⊢
          rw [ensure_f_slow_some _ s n b ha' hne] at hlc ⊢
          simp only [wake_true_ok, if_true] at hlc ⊢
          unfold loadCompleted at hlc
          rw [lookup_setActive] at hlc ⊢
          by_cases hk : n ∈ (sleep_model s b).engines ∨
              (n = MName.medasr ∧ (sleep_model s b).medasrEngine.isSome)
          · exact lookupSt_wake_self _ _ n (wake_true_ok _ n) hk
          · exfalso
            have h1 : n ∉ (sleep_model s b).engines := fun hc => hk (Or.inl hc)
            have h3 : ¬(n = MName.medasr ∧
                (sleep_model s b).medasrEngine.isSome) :=
              fun hc => hk (Or.inr hc)
            rw [wake_f_no_slot _ _ n h1 h3] at hlc
            have heng1 : (sleep_model s b).engines =
                [MName.medgemma, MName.functiongemma] := by
              rw [sleep_model_engines, h.wf.eng]
            rw [heng1] at h1
            cases n with
            | medgemma => simp at h1
            | functiongemma => simp at h1
            | medasr =>
                have hsome : (sleep_model s b).medasrEngine.isSome = false := by
                  cases hh : (sleep_model s b).medasrEngine.isSome with
                  | false => rfl
                  | true => exact absurd ⟨rfl, hh⟩ h3
                rw [sleep_model_medasr] at hsome
                have hkeys1 : (sleep_model s b).status.map Prod.fst =
                    [MName.medgemma, MName.functiongemma] := by
                  rw [map_fst_sleep s b h.wf, h.wf.keys, hsome]
                  simp
                have hmem := (lookupSt_isSome_iff
                  (sleep_model s b).status MName.medasr).mp hlc
                rw [hkeys1] at hmem
                simp at hmem
      | none =>
          unfold ensure_awake at hlc ⊢
          rw [ensure_f_slow_none _ s n ha'] at hlc ⊢
          simp only [wake_true_ok, if_true] at hlc ⊢
          unfold loadCompleted at hlc
          rw [lookup_setActive] at hlc ⊢
          by_cases hk : n ∈ s.engines ∨
              (n = MName.medasr ∧ s.medasrEngine.isSome)
          · exact lookupSt_wake_self _ _ n (wake_true_ok _ n) hk
          · exfalso
            have h1 : n ∉ s.engines := fun hc => hk (Or.inl hc)
            have h3 : ¬(n = MName.medasr ∧ s.medasrEngine.isSome) :=
              fun hc => hk (Or.inr hc)
            rw [wake_f_no_slot _ _ n h1 h3] at hlc
            rw [h.wf.eng] at h1
            cases n with
            | medgemma => simp at h1
            | functiongemma => simp at h1
            | medasr =>
                have hsome : s.medasrEngine.isSome = false := by
                  cases hh : s.medasrEngine.isSome with
                  | false => rfl
                  | true => exact absurd ⟨rfl, hh⟩ h3
                have hkeys1 : s.status.map Prod.fst =
                    [MName.medgemma, MName.functiongemma] := by
                  rw [h.wf.keys, hsome]
                  simp
                have hmem := (lookupSt_isSome_iff
                  s.status MName.medasr).mp hlc
                rw [hkeys1] at hmem
                simp at hmem

theorem ReachFrom_WF {s0 s : MState} (h : ReachFrom s0 s) (h0 : WF s0) :
    WF s := by
  induction h with
  | refl => exact h0
  | step s' n w hr ih => exact WF_step w s' n ih

theorem ReachFrom_medasrEngine {s0 s : MState} (h : ReachFrom s0 s) :
    s.medasrEngine = s0.medasrEngine := by
  induction h with
  | refl => rfl
  | step s' n w hr ih => rw [ensure_f_medasr, ih]

theorem Reach_WF {s : MState} (h : Reach s) : WF s := by
  obtain ⟨g, L, lm, ok, hr⟩ := h
  exact ReachFrom_WF hr (WF_init g L lm ok)

theorem StepsFrom_NWF {s0 s : MState} (h : StepsFrom s0 s) (h0 : NWF s0) :
    NWF s := by
  induction h with
  | refl => exact h0
  | step s' n hr ih => exact NWF_step s' n ih

theorem ReachN_NWF {s : MState} (h : ReachN s) : NWF s := by
  obtain ⟨g, L, lm, hr⟩ := h
  exact StepsFrom_NWF hr (NWF_init g L lm)

theorem StepsFrom_toReachFrom {s0 s : MState} (h : StepsFrom s0 s) :
    ReachFrom s0 s := by
  induction h with
  | refl => exact ReachFrom.refl s0
  | step s' n hr ih => exact ReachFrom.step s0 s' n (fun _ => true) ih

theorem FWF_init (g : Rat) (L : Nat) (lm ok : Bool)
    (hns : (initManager g L lm ok).medasrEngine ≠ some AsrKind.simulated) :
    FWF (initManager g L lm ok) := by
  refine ⟨WF_init g L lm ok, hns, ?_⟩
  intro m hm
  exfalso
  cases lm <;> cases ok <;> cases m <;>
    first
      | exact hns rfl
      | simp [initManager, setStatus, lookupSt] at hm

theorem FWF_step (w : MName → Bool) (s : MState) (n : MName) (h : FWF s) :
    FWF (ensure_awake_f w s n).2 := by
  refine ⟨WF_step w s n h.wf, ?_, ?_⟩
  · rw [ensure_f_medasr]
    exact h.noSim
  · intro m hm
    by_cases hf : s.active = some n
    · rw [ensure_f_fast w s n hf] at hm ⊢
      exact h.awakeInv m hm
    · cases ha : s.active with
      | some a =>
          have hne : a ≠ n := fun he => hf (he ▸ ha)
          rw [ensure_f_slow_some w s n a ha hne] at hm ⊢
          by_cases hw : (wake_model_f w (sleep_model s a) n).1 = true
          · rw [if_pos hw] at hm ⊢
            by_cases hmn : m = n
            · subst hmn
              rfl
            · exfalso
              rw [lookup_setActive, lookupSt_wake_ne _ _ n m hmn] at hm
              exact no_awake_after_sleep s a m h.wf h.awakeInv ha hm
          · have hw' : (wake_model_f w (sleep_model s a) n).1 = false := by
              simpa using hw
            rw [if_neg (by simp [hw'])] at hm ⊢
            rw [show ((false, (wake_model_f w (sleep_model s a) n).2) :
              Bool × MState).2 = (wake_model_f w (sleep_model s a) n).2 from
              rfl, wake_f_state_of_false w _ n hw'] at hm ⊢
            exfalso
            exact no_awake_after_sleep s a m h.wf h.awakeInv ha hm
      | none =>
          rw [ensure_f_slow_none w s n ha] at hm ⊢
          by_cases hw : (wake_model_f w s n).1 = true
          · rw [if_pos hw] at hm ⊢
            by_cases hmn : m = n
            · subst hmn
              rfl
            · exfalso
              rw [lookup_setActive, lookupSt_wake_ne _ _ n m hmn] at hm
              have hx := h.awakeInv m hm
              rw [ha] at hx
              exact Option.noConfusion hx
          · have hw' : (wake_model_f w s n).1 = false := by simpa using hw
            rw [if_neg (by simp [hw'])] at hm ⊢
            rw [show ((false, (wake_model_f w s n).2) :
              Bool × MState).2 = (wake_model_f w s n).2 from rfl,
              wake_f_state_of_false w s n hw'] at hm ⊢
            have hx := h.awakeInv m hm
            rw [ha] at hx
            exact Option.noConfusion hx

theorem ReachFrom_FWF {s0 s : MState} (h : ReachFrom s0 s) (h0 : FWF s0) :
    FWF s := by
  induction h with
  | refl => exact h0
  | step s' n w hr ih => exact FWF_step w s' n ih

theorem ReachNF_FWF {s : MState} (h : ReachNF s) : FWF s := by
  obtain ⟨g, L, lm, hr⟩ := h
  refine ReachFrom_FWF hr (FWF_init g L lm true ?_)
  cases lm <;> simp [initManager]

theorem Reach_noSim_FWF {s : MState} (h : Reach s)
    (hns : s.medasrEngine ≠ some AsrKind.simulated) : FWF s := by
  obtain ⟨g, L, lm, ok, hr⟩ := h
  have hminit := ReachFrom_medasrEngine hr
  refine ReachFrom_FWF hr (FWF_init g L lm ok ?_)
  rw [← hminit]
  exact hns

theorem ReachN_Reach {s : MState} (h : ReachN s) : Reach s := by
  obtain ⟨g, L, lm, hr⟩ := h
  exact ⟨g, L, lm, true, StepsFrom_toReachFrom hr⟩

/-! ### Trace-shape lemmas -/

theorem sleepEvents_shape (s : MState) (a : MName) :
    sleepEvents s a = [] ∨ sleepEvents s a = [TransEv.sleepEv a] := by
  unfold sleepEvents
  split
  · exact Or.inr rfl
  · split
    · rename_i hc
      obtain ⟨ha, _⟩ := hc
      subst ha
      exact Or.inr rfl
    · exact Or.inl rfl

theorem wakeEvents_shape (s : MState) (n : MName) :
    wakeEvents s n = [] ∨ wakeEvents s n = [TransEv.wakeEv n] := by
  unfold wakeEvents
  split
  · exact Or.inr rfl
  · split
    · rename_i hc
      obtain ⟨hn, _⟩ := hc
      subst hn
      exact Or.inr rfl
    · exact Or.inl rfl

theorem noSleepAfterWake_ensure (s : MState) (n : MName) :
    noSleepAfterWake (ensureAwakeTrace s n) = true := by
  unfold ensureAwakeTrace
  split
  · rfl
  · cases hsa : s.active with
    | none =>
        simp only [hsa]
        rcases wakeEvents_shape s n with h | h <;> rw [h] <;> rfl
    | some a =>
        simp only [hsa]
        rcases sleepEvents_shape s a with h1 | h1 <;>
          rcases wakeEvents_shape (sleep_model s a) n with h2 | h2 <;>
          rw [h1, h2] <;> rfl

theorem ensureAwakeStates_some (s : MState) (n a : MName)
    (hact : s.active = some a) (hne : a ≠ n) :
    ensureAwakeStates s n = [s, sleep_model s a,
      (wake_model_f (fun _ => true) (sleep_model s a) n).2,
      { (wake_model_f (fun _ => true) (sleep_model s a) n).2 with
          active := some n }] := by
  unfold ensureAwakeStates
  have hno : ¬s.active = some n := by
    rw [hact]
    simp [hne]
  rw [if_neg hno]
  simp only [hact]

theorem ensureAwakeTrace_slow (s : MState) (n a : MName)
    (hact : s.active = some a) (hne : a ≠ n) :
    ensureAwakeTrace s n =
      sleepEvents s a ++ wakeEvents (sleep_model s a) n := by
  unfold ensureAwakeTrace
  have hno : ¬s.active = some n := by
    rw [hact]
    simp [hne]
  rw [if_neg hno]
  simp only [hact]

theorem lookup_none_of_no_medasr (s : MState) (hwf : WF s)
    (hnone : s.medasrEngine = none) :
    lookupSt s.status MName.medasr = none := by
  have hkeys : s.status.map Prod.fst =
      [MName.medgemma, MName.functiongemma] := by
    rw [hwf.keys, hnone]
    simp
  cases hl : lookupSt s.status MName.medasr with
  | none => rfl
  | some v =>
      exfalso
      have hmem := (lookupSt_isSome_iff s.status MName.medasr).mp
        (by rw [hl]; rfl)
      rw [hkeys] at hmem
      simp at hmem

/-! ### Claim C1 -/

/-- Claim C1, counterexample: a manager constructed with a failing MedASR
load (fallback slot marked `"awake"`) followed by one `_ensure_awake`
call for medgemma is reachable, yet its status map shows two distinct
slots with status `"awake"` — so the single-resident invariant over the
status map fails once the simulated fallback is included, exactly the
case the claim covers. -/
theorem C1_counterexample :
    Reach (ensure_awake (initManager (85/100) 8192 true false)
      MName.medgemma) ∧
    lookupSt (ensure_awake (initManager (85/100) 8192 true false)
      MName.medgemma).status MName.medgemma = some St.awake ∧
    lookupSt (ensure_awake (initManager (85/100) 8192 true false)
      MName.medgemma).status MName.medasr = some St.awake ∧
    MName.medgemma ≠ MName.medasr := by
  refine ⟨⟨85/100, 8192, true, false, ?_⟩, by decide, by decide, by decide⟩
  exact ReachFrom.step _ _ MName.medgemma (fun _ => true) (ReachFrom.refl _)

/-- Claim C1 (amended): in every state reachable from a construction in
which the speech engine initialized successfully (or was not loaded) by
any sequence of `_ensure_awake`/inference calls — calls whose engine
`wake_up()` raises included — at most one slot has status `"awake"` in
the status map. -/
theorem C1_amended (s : MState) (hs : ReachNF s) :
    ∀ m m', lookupSt s.status m = some St.awake →
      lookupSt s.status m' = some St.awake → m = m' := by
  intro m m' hm hm'
  have h := ReachNF_FWF hs
  have h1 := h.awakeInv m hm
  have h2 := h.awakeInv m' hm'
  rw [h1] at h2
  simpa using h2

/-- Claim C1, witness for the amended theorem at a concrete reachable
state whose history contains a failed wake (medgemma woken, a raising
wake of functiongemma, then a successful retry) and a concrete pair of
awake slots. -/
theorem C1_witness :
    lookupSt (ensure_awake ((ensure_awake_f (fun _ => false)
      (ensure_awake (initManager (85/100) 8192 true true) MName.medgemma)
      MName.functiongemma).2) MName.functiongemma).status
      MName.functiongemma = some St.awake ∧
    MName.functiongemma = MName.functiongemma :=
  ⟨by decide,
    C1_amended _
      ⟨85/100, 8192, true,
        ReachFrom.step _ _ MName.functiongemma (fun _ => true)
          (ReachFrom.step _ _ MName.functiongemma (fun _ => false)
            (ReachFrom.step _ _ MName.medgemma (fun _ => true)
              (ReachFrom.refl _)))⟩
      MName.functiongemma MName.functiongemma (by decide) (by decide)⟩

/-! ### Claim C2 -/

/-- Claim C2, counterexample: the `generate_medgemma` entry point does
not hold the mutex across its transition and inference — its event trace
contains no lock acquisition at all, refuting the claim that every public
inference entry point holds the Manager mutex across `ensureActive` and
the inference call. -/
theorem C2_counterexample :
    holdsLockAcross (entryEvents EntryPoint.generateMedgemma) = false ∧
    (entryEvents EntryPoint.generateMedgemma).contains CallEv.lockAcquire =
      false := by
  decide

/-- Claim C2 (amended): no public inference entry point acquires the
Manager lock at all (each calls the synchronous `_ensure_awake` and then
infers lock-free), and even the unused `_ensure_awake_async` releases the
lock before any inference, so the lock-across-transition-and-inference
policy is implemented nowhere. -/
theorem C2_amended :
    ∀ e : EntryPoint,
      (entryEvents e).contains CallEv.lockAcquire = false ∧
      holdsLockAcross (entryEvents e) = false ∧
      holdsLockAcross (ensureAwakeAsyncEvents (entryModel e) ++
        [CallEv.inference (entryModel e)]) = false := by
  decide

/-! ### Claim C6 -/

/-- Claim C6: activation is idempotent — after `_ensure_awake n`, a second
`_ensure_awake n` with no intervening call is a fast-path no-op: it leaves
the whole manager state (all status fields and the active model)
unchanged and performs no engine evict/restore calls, so the two calls
together perform only the first call's single transition. -/
theorem C6_idempotent (s : MState) (n : MName) :
    ensure_awake (ensure_awake s n) n = ensure_awake s n ∧
    ensureAwakeTrace (ensure_awake s n) n = [] := by
  constructor
  · show (ensure_awake_f (fun _ => true) (ensure_awake s n) n).2 = _
    rw [ensure_f_fast _ _ n (ensure_awake_active s n)]
  · unfold ensureAwakeTrace
    rw [if_pos (ensure_awake_active s n)]

/-! ### Claim C10 -/

/-- Claim C10: `get_vllm_manager` constructs the manager (with its keyword
arguments and the MedASR load outcome) on the first call when the module
singleton is unset, caches it, and every later call returns exactly the
cached manager with the cache unchanged — the second call's keyword
arguments and environment are ignored entirely. -/
theorem C10_singleton (a1 a2 : MakeArgs) (ok1 ok2 : Bool) :
    (get_vllm_manager none a1 ok1).1 =
      initManager a1.gmu a1.maxLen a1.load_medasr ok1 ∧
    (get_vllm_manager none a1 ok1).2 =
      some (initManager a1.gmu a1.maxLen a1.load_medasr ok1) ∧
    (get_vllm_manager (get_vllm_manager none a1 ok1).2 a2 ok2).1 =
      (get_vllm_manager none a1 ok1).1 ∧
    (get_vllm_manager (get_vllm_manager none a1 ok1).2 a2 ok2).2 =
      (get_vllm_manager none a1 ok1).2 :=
  ⟨rfl, rfl, rfl, rfl⟩

/-! ### Claim C3 -/

/-- Claim C3, counterexample: starting from a reachable state with
medgemma active, an `_ensure_awake` for functiongemma whose `wake_up()`
raises propagates the error, yet leaves `self._active` still equal to
`medgemma` — not unset — while medgemma's own status has already been set
to `"asleep"`; the manager therefore reports as active a model that is
not resident, refuting the claim that `ActiveModel` is left unset. -/
theorem C3_counterexample :
    (ensure_awake_f (fun _ => false)
      (ensure_awake (initManager (85/100) 8192 false true) MName.medgemma)
      MName.functiongemma).1 = false ∧
    (ensure_awake_f (fun _ => false)
      (ensure_awake (initManager (85/100) 8192 false true) MName.medgemma)
      MName.functiongemma).2.active = some MName.medgemma ∧
    lookupSt (ensure_awake_f (fun _ => false)
      (ensure_awake (initManager (85/100) 8192 false true) MName.medgemma)
      MName.functiongemma).2.status MName.medgemma = some St.asleep := by
  refine ⟨by decide, by decide, by decide⟩

/-- Claim C3 (amended): if the requested model's `wake_up()` raises during
`_ensure_awake`, the error propagates and — for every reachable manager
state, fallback constructions and earlier failures included —
`self._active` is left unchanged from before the attempt (the previously
active model, now dormant, or `None`), not unset, and afterwards no model
is GPU-resident; moreover, unless the manager was constructed with the
simulated speech fallback (whose slot can remain recorded `"awake"`
throughout), no slot at all is recorded `"awake"`. The `active` field may
thus still name the previously active, now dormant, model. -/
theorem C3_amended (s : MState) (n : MName) (w : MName → Bool)
    (hs : Reach s) (hfail : (ensure_awake_f w s n).1 = false) :
    (ensure_awake_f w s n).2.active = s.active ∧
    (∀ m, gpuResident (ensure_awake_f w s n).2 m = false) ∧
    (s.medasrEngine ≠ some AsrKind.simulated →
      ∀ m, lookupSt (ensure_awake_f w s n).2.status m ≠ some St.awake) := by
  have hwf := Reach_WF hs
  refine ⟨ensure_f_active_of_false w s n hfail, ?_, ?_⟩
  · intro m
    by_cases hf : s.active = some n
    · rw [ensure_f_fast w s n hf] at hfail
      exact absurd hfail (by simp)
    · cases ha : s.active with
      | some a =>
          have hne : a ≠ n := fun he => hf (he ▸ ha)
          rw [ensure_f_slow_some w s n a ha hne] at hfail ⊢
          by_cases hw : (wake_model_f w (sleep_model s a) n).1 = true
          · rw [if_pos hw] at hfail
            exact absurd hfail (by simp)
          · have hw' : (wake_model_f w (sleep_model s a) n).1 = false := by
              simpa using hw
            rw [if_neg (by simp [hw'])]
            show gpuResident (wake_model_f w (sleep_model s a) n).2 m = false
            rw [wake_f_state_of_false w _ n hw']
            exact no_gpu_after_sleep s a m hwf ha
      | none =>
          rw [ensure_f_slow_none w s n ha] at hfail ⊢
          by_cases hw : (wake_model_f w s n).1 = true
          · rw [if_pos hw] at hfail
            exact absurd hfail (by simp)
          · have hw' : (wake_model_f w s n).1 = false := by simpa using hw
            rw [if_neg (by simp [hw'])]
            show gpuResident (wake_model_f w s n).2 m = false
            rw [wake_f_state_of_false w s n hw']
            cases hres : gpuResident s m with
            | false => rfl
            | true =>
                exfalso
                have hx := hwf.gpuInv m hres
                rw [ha] at hx
                exact Option.noConfusion hx
  · intro hns m
    have hF := Reach_noSim_FWF hs hns
    by_cases hf : s.active = some n
    · rw [ensure_f_fast w s n hf] at hfail
      exact absurd hfail (by simp)
    · cases ha : s.active with
      | some a =>
          have hne : a ≠ n := fun he => hf (he ▸ ha)
          rw [ensure_f_slow_some w s n a ha hne] at hfail ⊢
          by_cases hw : (wake_model_f w (sleep_model s a) n).1 = true
          · rw [if_pos hw] at hfail
            exact absurd hfail (by simp)
          · have hw' : (wake_model_f w (sleep_model s a) n).1 = false := by
              simpa using hw
            rw [if_neg (by simp [hw'])]
            show lookupSt (wake_model_f w (sleep_model s a) n).2.status m ≠
              some St.awake
            rw [wake_f_state_of_false w _ n hw']
            exact no_awake_after_sleep s a m hwf hF.awakeInv ha
      | none =>
          rw [ensure_f_slow_none w s n ha] at hfail ⊢
          by_cases hw : (wake_model_f w s n).1 = true
          · rw [if_pos hw] at hfail
            exact absurd hfail (by simp)
          · have hw' : (wake_model_f w s n).1 = false := by simpa using hw
            rw [if_neg (by simp [hw'])]
            show lookupSt (wake_model_f w s n).2.status m ≠ some St.awake
            rw [wake_f_state_of_false w s n hw']
            intro hm
            have hx := hF.awakeInv m hm
            rw [ha] at hx
            exact Option.noConfusion hx

/-- Claim C3, witness for the amended theorem: the failing transition at a
concrete reachable state leaves the active field unchanged, no GPU-resident
model, and no slot recorded awake. -/
theorem C3_witness :
    (ensure_awake_f (fun _ => false)
      (ensure_awake (initManager (85/100) 8192 false true) MName.medgemma)
      MName.functiongemma).2.active =
      (ensure_awake (initManager (85/100) 8192 false true)
        MName.medgemma).active ∧
    gpuResident (ensure_awake_f (fun _ => false)
      (ensure_awake (initManager (85/100) 8192 false true) MName.medgemma)
      MName.functiongemma).2 MName.medgemma = false ∧
    lookupSt (ensure_awake_f (fun _ => false)
      (ensure_awake (initManager (85/100) 8192 false true) MName.medgemma)
      MName.functiongemma).2.status MName.medgemma ≠ some St.awake := by
  have h := C3_amended _ MName.functiongemma (fun _ => false)
    ⟨85/100, 8192, false, true,
      ReachFrom.step _ _ MName.medgemma (fun _ => true) (ReachFrom.refl _)⟩
    (by decide)
  exact ⟨h.1, h.2.1 MName.medgemma, h.2.2 (by decide) MName.medgemma⟩

/-! ### Claim C4 -/

/-- Claim C4, counterexample: from the legitimate prior manager state
produced by a construction whose MedASR load failed (fallback slot marked
`"awake"`), a successful `_ensure_awake medgemma` returns with the
requested slot resident and `active == medgemma`, yet the medasr slot is
also `"awake"` — not dormant or unloaded — refuting the postcondition as
stated over every prior manager state. -/
theorem C4_counterexample :
    (ensure_awake_f (fun _ => true) (initManager (85/100) 8192 true false)
      MName.medgemma).1 = true ∧
    (get_status (ensure_awake (initManager (85/100) 8192 true false)
      MName.medgemma)).1.active = some MName.medgemma ∧
    lookupSt (ensure_awake (initManager (85/100) 8192 true false)
      MName.medgemma).status MName.medasr = some St.awake ∧
    MName.medasr ≠ MName.medgemma := by
  refine ⟨by decide, by decide, by decide, by decide⟩

/-- Claim C4 (amended): for every normally-reachable prior state (speech
fallback absent, no engine call raising) and every load-completed name,
`_ensure_awake name` completes successfully and on return `self._active`
and `get_status().active` equal the name, the requested slot's status is
`"awake"`, and no other slot's status is `"awake"` (each is `"asleep"` or
absent). -/
theorem C4_amended (s : MState) (n : MName) (hs : ReachN s)
    (hlc : loadCompleted s n = true) :
    (ensure_awake_f (fun _ => true) s n).1 = true ∧
    (ensure_awake s n).active = some n ∧
    (get_status (ensure_awake s n)).1.active = some n ∧
    lookupSt (ensure_awake s n).status n = some St.awake ∧
    ∀ m, m ≠ n → lookupSt (ensure_awake s n).status m ≠ some St.awake := by
  have hN := ReachN_NWF hs
  have hNF := NWF_step s n hN
  refine ⟨ensure_true_ok s n, ensure_awake_active s n,
    ensure_awake_active s n, ?_, ?_⟩
  · apply hNF.activeAwake n (ensure_awake_active s n)
    rw [show loadCompleted (ensure_awake s n) n = loadCompleted s n from
      loadCompleted_ensure _ s n n hN.wf]
    exact hlc
  · intro m hmn hcontra
    have hx := hNF.awakeInv m hcontra
    rw [ensure_awake_active s n] at hx
    simp at hx
    exact hmn hx.symm

/-- Claim C4, witness for the amended theorem at a freshly constructed
manager and the medgemma slot. -/
theorem C4_witness :
    (ensure_awake_f (fun _ => true) (initManager (85/100) 8192 true true)
      MName.medgemma).1 = true ∧
    (ensure_awake (initManager (85/100) 8192 true true)
      MName.medgemma).active = some MName.medgemma ∧
    (get_status (ensure_awake (initManager (85/100) 8192 true true)
      MName.medgemma)).1.active = some MName.medgemma ∧
    lookupSt (ensure_awake (initManager (85/100) 8192 true true)
      MName.medgemma).status MName.medgemma = some St.awake ∧
    lookupSt (ensure_awake (initManager (85/100) 8192 true true)
      MName.medgemma).status MName.functiongemma ≠ some St.awake := by
  have h := C4_amended _ MName.medgemma
    ⟨85/100, 8192, true, StepsFrom.refl _⟩ (by decide)
  exact ⟨h.1, h.2.1, h.2.2.1, h.2.2.2.1,
    h.2.2.2.2 MName.functiongemma (by decide)⟩

theorem loadCompleted_slot (s : MState) (a : MName) (hwf : WF s)
    (h : loadCompleted s a = true) :
    a ∈ s.engines ∨ (a = MName.medasr ∧ s.medasrEngine.isSome) := by
  unfold loadCompleted at h
  have hmem := (lookupSt_isSome_iff _ _).mp h
  rw [hwf.keys] at hmem
  cases a with
  | medgemma => exact Or.inl (by rw [hwf.eng]; simp)
  | functiongemma => exact Or.inl (by rw [hwf.eng]; simp)
  | medasr =>
      cases hh : s.medasrEngine.isSome with
      | true => exact Or.inr ⟨rfl, rfl⟩
      | false =>
          rw [hh] at hmem
          simp at hmem

/-! ### Claim C5 -/

/-- Claim C5: whenever `_ensure_awake n` runs while a different model `a`
is active, the engine-call trace never places an evict after a restore
(evict-then-restore ordering); the state handed to the wake step already
records the previously active model as `"asleep"` (when that model is
load-completed); and every state visited during the transition —
including the intermediate one between evict and restore — has at most
one GPU-resident engine (the software-only simulated fallback occupies no
GPU, per the source). -/
theorem C5_evict_then_restore (s : MState) (a n : MName) (hs : Reach s)
    (hact : s.active = some a) (hne : a ≠ n) :
    noSleepAfterWake (ensureAwakeTrace s n) = true ∧
    (loadCompleted s a = true →
      lookupSt (sleep_model s a).status a = some St.asleep) ∧
    ∀ s' ∈ ensureAwakeStates s n, ∀ m m',
      gpuResident s' m = true → gpuResident s' m' = true → m = m' := by
  have hwf := Reach_WF hs
  refine ⟨noSleepAfterWake_ensure s n, ?_, ?_⟩
  · intro hlc
    exact lookupSt_sleep_self s a (loadCompleted_slot s a hwf hlc)
  · have hs1 : ∀ m, gpuResident (sleep_model s a) m = false := fun m =>
      no_gpu_after_sleep s a m hwf hact
    have hs2 : ∀ m, m ≠ n →
        gpuResident (wake_model_f (fun _ => true) (sleep_model s a) n).2 m
          = false := by
      intro m hm
      rw [gpuResident_wake_ne _ _ _ _ hm]
      exact hs1 m
    intro s' hmem m m' hm hm'
    rw [ensureAwakeStates_some s n a hact hne] at hmem
    simp only [List.mem_cons, List.not_mem_nil, or_false] at hmem
    rcases hmem with rfl | rfl | rfl | rfl
    · have h1 := hwf.gpuInv m hm
      have h2 := hwf.gpuInv m' hm'
      rw [h1] at h2
      simpa using h2
    · rw [hs1 m] at hm
      exact absurd hm (by simp)
    · by_cases hmn : m = n
      · by_cases hmn' : m' = n
        · rw [hmn, hmn']
        · rw [hs2 m' hmn'] at hm'
          exact absurd hm' (by simp)
      · rw [hs2 m hmn] at hm
        exact absurd hm (by simp)
    · rw [gpuResident_setActive] at hm hm'
      by_cases hmn : m = n
      · by_cases hmn' : m' = n
        · rw [hmn, hmn']
        · rw [hs2 m' hmn'] at hm'
          exact absurd hm' (by simp)
      · rw [hs2 m hmn] at hm
        exact absurd hm (by simp)

/-- Claim C5, witness: the transition from medgemma-active to
functiongemma at a concrete reachable state. -/
theorem C5_witness :
    noSleepAfterWake (ensureAwakeTrace
      (ensure_awake (initManager (85/100) 8192 true true) MName.medgemma)
      MName.functiongemma) = true ∧
    lookupSt (sleep_model (ensure_awake (initManager (85/100) 8192 true
      true) MName.medgemma) MName.medgemma).status MName.medgemma =
      some St.asleep ∧
    MName.functiongemma = MName.functiongemma := by
  have h := C5_evict_then_restore _ MName.medgemma MName.functiongemma
    ⟨85/100, 8192, true, true,
      ReachFrom.step _ _ MName.medgemma (fun _ => true) (ReachFrom.refl _)⟩
    (by decide) (by decide)
  refine ⟨h.1, h.2.1 (by decide), ?_⟩
  have hmem : (wake_model_f (fun _ => true)
      (sleep_model (ensure_awake (initManager (85/100) 8192 true true)
        MName.medgemma) MName.medgemma) MName.functiongemma).2 ∈
      ensureAwakeStates (ensure_awake (initManager (85/100) 8192 true true)
        MName.medgemma) MName.functiongemma := by
    rw [ensureAwakeStates_some _ MName.functiongemma MName.medgemma
      (by decide) (by decide)]
    exact List.mem_cons_of_mem _ (List.mem_cons_of_mem _
      (List.mem_cons_self _ _))
  exact h.2.2 _ hmem MName.functiongemma MName.functiongemma
    (by decide) (by decide)

/-! ### Claim C7 -/

/-- Claim C7, counterexample: on a manager whose MedASR load failed (slot
substituted with the simulated fallback and marked `"awake"`), activating
medasr and then medgemma is a reachable call sequence after which the
fallback slot's status is `"asleep"` — so the slot is not *permanently*
reported resident for the lifetime of the manager, refuting that part of
the claim. -/
theorem C7_counterexample :
    ReachFrom (initManager (85/100) 8192 true false)
      (ensure_awake (ensure_awake (initManager (85/100) 8192 true false)
        MName.medasr) MName.medgemma) ∧
    lookupSt (ensure_awake (ensure_awake (initManager (85/100) 8192 true
      false) MName.medasr) MName.medgemma).status MName.medasr =
      some St.asleep := by
  constructor
  · exact ReachFrom.step _ _ MName.medgemma (fun _ => true)
      (ReachFrom.step _ _ MName.medasr (fun _ => true) (ReachFrom.refl _))
  · decide

/-- Claim C7 (amended): if the speech engine's initialization fails,
construction still succeeds with the `SimulatedMedASR` fallback
substituted in the slot, `get_status` reports that slot `"awake"` at
construction (and it has a status entry — is never unloaded — in every
state reachable for the lifetime of the manager); the slot stays awake
only until the first time it is put to sleep by a later transition, not
permanently. -/
theorem C7_amended (g : Rat) (L : Nat) :
    (initManager g L true false).medasrEngine = some AsrKind.simulated ∧
    lookupSt (initManager g L true false).status MName.medasr =
      some St.awake ∧
    (get_status (initManager g L true false)).1.models.map Prod.fst =
      [MName.medgemma, MName.functiongemma, MName.medasr] ∧
    ∀ s, ReachFrom (initManager g L true false) s →
      (lookupSt s.status MName.medasr).isSome = true := by
  refine ⟨rfl, rfl, rfl, ?_⟩
  intro s hr
  have hwf := ReachFrom_WF hr (WF_init g L true false)
  have hm := ReachFrom_medasrEngine hr
  have hsome : s.medasrEngine.isSome = true := by
    rw [hm]
    rfl
  rw [lookupSt_isSome_iff, hwf.keys, hsome]
  simp

/-- Claim C7, witness for the amended theorem: the fallback slot has a
status entry at the constructed state itself. -/
theorem C7_witness :
    (lookupSt (initManager (85/100) 8192 true false).status
      MName.medasr).isSome = true :=
  (C7_amended (85/100) 8192).2.2.2 _ (ReachFrom.refl _)

/-! ### Claim C8 -/

/-- Claim C8: `get_status` is a pure read — the manager state after the
call is exactly the state before it (no field changes) — and the snapshot
it returns has the shape `active = self._active` plus one `models` entry
per initialized slot: the two vLLM slots always, and the medasr slot
exactly when a MedASR engine (real or fallback) exists. -/
theorem C8_get_status_pure (s : MState) (hs : Reach s) :
    (get_status s).2 = s ∧
    (get_status s).1.active = s.active ∧
    (get_status s).1.models = s.status ∧
    (get_status s).1.models.map Prod.fst =
      (if s.medasrEngine.isSome then
        [MName.medgemma, MName.functiongemma, MName.medasr]
      else [MName.medgemma, MName.functiongemma]) :=
  ⟨rfl, rfl, rfl, (Reach_WF hs).keys⟩

/-- Claim C8, witness at a concrete constructed manager. -/
theorem C8_witness :
    (get_status (initManager (85/100) 8192 true true)).2 =
      initManager (85/100) 8192 true true ∧
    (get_status (initManager (85/100) 8192 true true)).1.active =
      (initManager (85/100) 8192 true true).active ∧
    (get_status (initManager (85/100) 8192 true true)).1.models =
      (initManager (85/100) 8192 true true).status ∧
    (get_status (initManager (85/100) 8192 true true)).1.models.map
      Prod.fst =
      (if (initManager (85/100) 8192 true true).medasrEngine.isSome then
        [MName.medgemma, MName.functiongemma, MName.medasr]
      else [MName.medgemma, MName.functiongemma]) :=
  C8_get_status_pure _ ⟨85/100, 8192, true, true, ReachFrom.refl _⟩

/-! ### Claim C9 -/

/-- Claim C9: on a manager whose speech engine was never loaded
(`load_medasr=False`, so `self._medasr` is `None`), calling the speech
entry point still runs the transition: the previously active model is put
to sleep, `self._active` becomes `medasr`, no engine is woken (the wake
is silently skipped, with no engine wake call in the trace), no `medasr`
entry is added to the status map, no slot at all is left `"awake"`, and
the subsequent transcription call dereferences the absent engine and
fails. -/
theorem C9_missing_speech_slot (s : MState) (hs : ReachN s)
    (hnone : s.medasrEngine = none) :
    (transcribe_audio_file s).1 = TResult.attrError ∧
    (transcribe_audio_file s).2.active = some MName.medasr ∧
    lookupSt (transcribe_audio_file s).2.status MName.medasr = none ∧
    (∀ a, s.active = some a → a ≠ MName.medasr →
      lookupSt (transcribe_audio_file s).2.status a = some St.asleep) ∧
    (∀ m, lookupSt (transcribe_audio_file s).2.status m ≠ some St.awake) ∧
    (∀ m, TransEv.wakeEv m ∉ ensureAwakeTrace s MName.medasr) := by
  have hN := ReachN_NWF hs
  have hNF := NWF_step s MName.medasr hN
  have hF : (ensure_awake s MName.medasr).medasrEngine = none := by
    rw [show (ensure_awake s MName.medasr).medasrEngine = s.medasrEngine from
      ensure_f_medasr _ s MName.medasr]
    exact hnone
  have htr : transcribe_audio_file s =
      (TResult.attrError, ensure_awake s MName.medasr) := by
    unfold transcribe_audio_file
    simp only [hF]
  have hkeyF : lookupSt (ensure_awake s MName.medasr).status MName.medasr =
      none := lookup_none_of_no_medasr _ (WF_step _ s _ hN.wf) hF
  rw [htr]
  refine ⟨rfl, ensure_awake_active s MName.medasr, hkeyF, ?_, ?_, ?_⟩
  · intro a hact hanema
    unfold ensure_awake
    rw [ensure_f_slow_some _ s MName.medasr a hact hanema]
    simp only [wake_true_ok, if_true]
    rw [lookup_setActive, lookupSt_wake_ne _ _ MName.medasr a hanema]
    apply lookupSt_sleep_self
    left
    rw [hN.wf.eng]
    cases a with
    | medgemma => simp
    | functiongemma => simp
    | medasr => exact absurd rfl hanema
  · intro m hm
    have hx := hNF.awakeInv m hm
    rw [ensure_awake_active s MName.medasr] at hx
    have hma : MName.medasr = m := by simpa using hx
    subst hma
    rw [hkeyF] at hm
    exact Option.noConfusion hm
  · intro m
    by_cases hf : s.active = some MName.medasr
    · unfold ensureAwakeTrace
      rw [if_pos hf]
      simp
    · cases ha : s.active with
      | some a =>
          have hne : a ≠ MName.medasr := fun he => hf (he ▸ ha)
          rw [ensureAwakeTrace_slow s MName.medasr a ha hne]
          have hwk : wakeEvents (sleep_model s a) MName.medasr = [] := by
            have h1 : MName.medasr ∉ (sleep_model s a).engines := by
              rw [sleep_model_engines, hN.wf.eng]
              simp
            have h2 : ¬(MName.medasr = MName.medasr ∧
                (sleep_model s a).medasrEngine = some AsrKind.real) := by
              rw [sleep_model_medasr, hnone]
              simp
            unfold wakeEvents
            rw [if_neg h1, if_neg h2]
          rw [hwk, List.append_nil]
          rcases sleepEvents_shape s a with h | h <;> rw [h] <;> simp
      | none =>
          unfold ensureAwakeTrace
          rw [if_neg hf]
          simp only [ha]
          have h1 : MName.medasr ∉ s.engines := by
            rw [hN.wf.eng]
            simp
          have h2 : ¬(MName.medasr = MName.medasr ∧
              s.medasrEngine = some AsrKind.real) := by
            rw [hnone]
            simp
          unfold wakeEvents
          rw [if_neg h1, if_neg h2]
          simp

/-- Claim C9, witness: a manager constructed with `load_medasr=False`,
after one medgemma activation, then the failing speech entry point. -/
theorem C9_witness :
    (transcribe_audio_file (ensure_awake (initManager (85/100) 8192 false
      true) MName.medgemma)).1 = TResult.attrError ∧
    (transcribe_audio_file (ensure_awake (initManager (85/100) 8192 false
      true) MName.medgemma)).2.active = some MName.medasr ∧
    lookupSt (transcribe_audio_file (ensure_awake (initManager (85/100)
      8192 false true) MName.medgemma)).2.status MName.medasr = none ∧
    lookupSt (transcribe_audio_file (ensure_awake (initManager (85/100)
      8192 false true) MName.medgemma)).2.status MName.medgemma =
      some St.asleep ∧
    lookupSt (transcribe_audio_file (ensure_awake (initManager (85/100)
      8192 false true) MName.medgemma)).2.status MName.functiongemma ≠
      some St.awake ∧
    TransEv.wakeEv MName.medasr ∉ ensureAwakeTrace (ensure_awake
      (initManager (85/100) 8192 false true) MName.medgemma)
      MName.medasr := by
  have h := C9_missing_speech_slot _
    ⟨85/100, 8192, false, StepsFrom.step _ _ MName.medgemma (StepsFrom.refl _)⟩
    (by decide)
  exact ⟨h.1, h.2.1, h.2.2.1,
    h.2.2.2.1 MName.medgemma (by decide) (by decide),
    h.2.2.2.2.1 MName.functiongemma,
    h.2.2.2.2.2 MName.medasr⟩
